import Mathlib

/-!
Verification of the command-shell program in `src/main.js`.

The program is a read-eval-print loop over operating-system primitives.  This
file gives a shallow embedding of its data model and operation handlers:

* the host filesystem is modelled as an association list from absolute,
  normalized paths (lists of components) to entries (regular file with byte
  content, directory, or other);
* `path.resolve` / `path.basename` / `path.join` are modelled over component
  lists;
* each operation handler of `src/main.js` is translated to a pure function
  returning the new session, the console output lines, and a success or error
  outcome; thrown JavaScript errors become values of the `Err` type, tagged by
  the throw site that produces them;
* the dispatch loop (the `on line` callback) is translated to a step function
  from a token list to a `StepResult`.

JavaScript property lookup on object literals (`commandRegistry[name]`,
`propertyAccessors[key]`) consults the prototype chain, so names of inherited
`Object.prototype` members are truthy; the embedding models that faithfully
(`objectProtoMembers`, `strayProtoCall`, `osProtoCall`).

Console rendering details (table layout, `JSON.stringify` of the EOL marker)
are immaterial to the claims and are modelled as plain string concatenation.
External codecs (SHA-256, Brotli, UTF-8 decoding) are delegated by the program
to libraries and are parameters of the model (`Env`).
-/

namespace MainJs

/-- An absolute, normalized path: the list of its components. -/
abbrev Path := List String

/-- A filesystem entry: a regular file with its byte content, a directory, or
anything else (symlink, device, fifo, ...). -/
inductive Entry where
  | file (content : List Nat)
  | dir
  | other
deriving DecidableEq

/-- The host filesystem, modelled as an association list from absolute
normalized paths to entries.  Earlier bindings shadow later ones. -/
abbrev FS := List (Path × Entry)

/-- Lookup of a path in the modelled filesystem. -/
def fsLookup : FS → Path → Option Entry
  | [], _ => none
  | (q, e) :: t, p => if q = p then some e else fsLookup t p

/-- Remove a path from the modelled filesystem (models `unlink`). -/
def fsRemove : FS → Path → FS
  | [], _ => []
  | (q, e) :: t, p => if q = p then fsRemove t p else (q, e) :: fsRemove t p

/-- Create or overwrite the entry at a path (models creating a file or
truncating-and-writing it). -/
def fsSet (fs : FS) (p : Path) (e : Entry) : FS :=
  (p, e) :: fsRemove fs p

/-- One step of path normalization, as done by `path.resolve`: `.` is
dropped, `..` removes the last component (at the root it stays at the root),
anything else is appended. -/
def applyComponent (acc : List String) (c : String) : List String :=
  if c = "." then acc
  else if c = ".." then acc.dropLast
  else acc ++ [c]

/-- Split a character list at every character satisfying `sep`, accumulating
the current piece in reverse. -/
def splitBy (sep : Char → Bool) : List Char → List Char → List String
  | [], acc => [String.mk acc.reverse]
  | c :: rest, acc =>
    if sep c then String.mk acc.reverse :: splitBy sep rest []
    else splitBy sep rest (c :: acc)

/-- Split a raw path string into its slash-separated components; empty
components (leading, trailing or doubled slashes) are dropped. -/
def splitPath (s : String) : List String :=
  (splitBy (fun c => c = '/') s.data []).filter (fun c => c ≠ "")

/-- Whether a raw path string is absolute (starts with a slash). -/
def isAbsolute (s : String) : Bool :=
  match s.data with
  | [] => false
  | c :: _ => c = '/'

/-- Model of `path.resolve(base, arg)`: an absolute `arg` ignores `base`,
otherwise its components are applied on top of `base`; `.` and `..`
components are normalized away. -/
def resolve (base : Path) (arg : String) : Path :=
  (if isAbsolute arg then splitPath arg else base ++ splitPath arg).foldl
    applyComponent []

/-- Model of `path.basename` on an absolute normalized path. -/
def basename (p : Path) : String :=
  p.getLast?.getD ""

/-- Model of `path.join(dir, frag)` followed by the normalization `path`
performs: the fragment is joined onto `dir` even when it starts with `/`. -/
def joinPath (dir : Path) (frag : String) : Path :=
  (dir ++ splitPath frag).foldl applyComponent []

/-- Error values of the model.  JavaScript only throws `Error` objects with a
message; the constructor records the class of throw site that produced the
error, following the taxonomy of the specification (argument validation,
missing path, exclusive-create conflict, directory passed to a single-file
operation, underlying I/O failure, runtime `TypeError`). -/
inductive Err where
  | invalidArgument (msg : String)
  | notFound (msg : String)
  | alreadyExists (msg : String)
  | unsupportedOperation (msg : String)
  | ioError (msg : String)
  | typeError (msg : String)
deriving DecidableEq

/-- The message carried by an error, as printed by the dispatch loop. -/
def Err.message : Err → String
  | .invalidArgument m => m
  | .notFound m => m
  | .alreadyExists m => m
  | .unsupportedOperation m => m
  | .ioError m => m
  | .typeError m => m

/-- The mutable session state: the current working directory (the program
keeps it in the ambient OS working directory) together with the modelled
filesystem the commands act on. -/
structure Session where
  cwd : Path
  fs : FS
deriving DecidableEq

/-- Host environment parameters and external codecs the program delegates to
libraries: the home directory, OS facts reported by the `os` command, and the
hashing / compression / text-decoding functions. -/
structure Env where
  homedir : Path
  eol : String
  cpus : List (String × Nat)
  username : String
  arch : String
  sha256hex : List Nat → String
  brotliEncode : List Nat → List Nat
  brotliDecode : List Nat → Option (List Nat)
  renderText : List Nat → String

deriving instance DecidableEq for Except

/-- Result of one operation handler: the session after the call, the console
lines it printed, and its outcome (`ok` or the thrown error). -/
structure HRes where
  session : Session
  out : List String
  res : Except Err Unit
deriving DecidableEq

/-- JavaScript falsiness of an optional string argument: a missing argument
(`undefined`) and the empty string are both falsy. -/
def jsFalsy : Option String → Bool
  | none => true
  | some s => s = ""

/-- Render a path for console output. -/
def renderPath (p : Path) : String :=
  "/" ++ String.intercalate "/" p

/-- True when the parent of `p` exists as a directory (the root counts), so
that a file may be created at `p`. -/
def parentReady (fs : FS) (p : Path) : Bool :=
  p ≠ [] && (p.dropLast = [] || fsLookup fs p.dropLast = some .dir)

/-- True when `createWriteStream` on `p` can open its target: the parent
directory exists and `p` itself is not a directory. -/
def writeStreamReady (fs : FS) (p : Path) : Bool :=
  parentReady fs p && fsLookup fs p ≠ some .dir

/-! ## Navigation handlers -/

/-- Model of `navigateUpward` (`up`): if the current directory is not the
home directory, `chdir` to the parent; otherwise print an informational
message and stay. -/
def navigateUpward (env : Env) (s : Session) : HRes :=
  if s.cwd ≠ env.homedir then
    ⟨{ s with cwd := s.cwd.dropLast }, [], .ok ()⟩
  else
    ⟨s, ["Already at the root user directory. Cannot go further up."], .ok ()⟩

/-- Model of `navigateToSpecificDirectory` (`cd`): reject a falsy argument,
resolve the path, `stat` it (throwing `ENOENT` when absent), then `chdir`.
The OS `chdir` itself fails with `ENOTDIR` when the target exists but is not
a directory, which the source does not pre-check. -/
def navigateToSpecificDirectory (s : Session) (destination : Option String) : HRes :=
  if jsFalsy destination then
    ⟨s, [], .error (.invalidArgument "Directory path not specified.")⟩
  else
    let prospectivePath := resolve s.cwd (destination.getD "")
    match fsLookup s.fs prospectivePath with
    | none => ⟨s, [], .error (.notFound "ENOENT: no such file or directory")⟩
    | some .dir => ⟨{ s with cwd := prospectivePath }, [], .ok ()⟩
    | some _ => ⟨s, [], .error (.ioError "ENOTDIR: not a directory")⟩

/-! ## Listing handler and its sort

`enumerateDirectoryContents` maps each entry to a `{Name, Type}` row and
sorts with the comparator

    (a, b) => a.Type === b.Type ? a.Name.localeCompare(b.Name)
                                : (a.Type === 'Folder' ? -1 : 1)

This comparator is *inconsistent* on `File`/`Other` pairs (it returns `1` in
both directions), and ECMAScript leaves the result of `Array.prototype.sort`
implementation-defined for inconsistent comparators.  `Array.prototype.sort`
is therefore modelled as the binary-insertion phase of the TimSort used by
the V8 engine the program runs on (for short arrays the whole array is sorted
that way); on the concrete listings used below the full TimSort produces the
same output. -/

/-- A row of the `ls` table: the entry name and its classification string
(`"Folder"`, `"File"` or `"Other"`). -/
structure LsRow where
  name : String
  ty : String
deriving DecidableEq

/-- Lexicographic three-way comparison of character lists by code point. -/
def charListCompare : List Char → List Char → Int
  | [], [] => 0
  | [], _ :: _ => -1
  | _ :: _, [] => 1
  | a :: as, b :: bs =>
    if a.toNat < b.toNat then -1
    else if b.toNat < a.toNat then 1
    else charListCompare as bs

/-- Model of `String.prototype.localeCompare` as code-point lexicographic
comparison.  The real function is locale-dependent; the claims depend only on
it being a consistent comparison of names. -/
def localeCompare (a b : String) : Int :=
  charListCompare a.data b.data

/-- The `ls` sort comparator, translated from the source. -/
def lsCmp (a b : LsRow) : Int :=
  if a.ty = b.ty then localeCompare a.name b.name
  else if a.ty = "Folder" then -1 else 1

/-- The binary search of V8 binary insertion sort: find the position of
`pivot` within `l.take right` starting the search at `[left, right)`.  The
fuel argument is an upper bound on `right - left` making the recursion
structural. -/
def binSearchGo (cmp : α → α → Int) (pivot : α) (l : List α) :
    Nat → Nat → Nat → Nat
  | 0, left, _ => left
  | fuel + 1, left, right =>
    if left < right then
      if cmp pivot (l.getD ((left + right) / 2) pivot) < 0 then
        binSearchGo cmp pivot l fuel left ((left + right) / 2)
      else
        binSearchGo cmp pivot l fuel ((left + right) / 2 + 1) right
    else left

/-- Position at which V8 binary insertion sort inserts `pivot` into the
already-processed prefix `l`. -/
def binSearchPos (cmp : α → α → Int) (pivot : α) (l : List α) : Nat :=
  binSearchGo cmp pivot l l.length 0 l.length

/-- Insert an element at a given position of a list. -/
def insertAt : Nat → α → List α → List α
  | 0, x, l => x :: l
  | _ + 1, x, [] => [x]
  | n + 1, x, b :: l => b :: insertAt n x l

/-- Binary insertion sort: each element is inserted into the sorted prefix at
the position found by binary search (V8 TimSort run phase). -/
def binsort (cmp : α → α → Int) (l : List α) : List α :=
  l.foldl (fun acc x => insertAt (binSearchPos cmp x acc) x acc) []

/-- The children of a directory in the modelled filesystem, in filesystem
order (the order `readdir` reports them in is OS-defined). -/
def childrenOf (fs : FS) (p : Path) : List (String × Entry) :=
  fs.filterMap (fun qe =>
    if qe.1.dropLast = p ∧ qe.1 ≠ [] then some (basename qe.1, qe.2) else none)

/-- The `{Name, Type}` row made from one directory entry (`isDirectory`,
`isFile` classification from the source). -/
def rowOf (ne : String × Entry) : LsRow :=
  { name := ne.1,
    ty := match ne.2 with
          | .dir => "Folder"
          | .file _ => "File"
          | .other => "Other" }

/-- The unsorted rows `ls` builds from `readdir` of the current directory. -/
def lsInputRows (s : Session) : List LsRow :=
  (childrenOf s.fs s.cwd).map rowOf

/-- The rows of the `ls` table after the sort. -/
def lsRows (s : Session) : List LsRow :=
  binsort lsCmp (lsInputRows s)

/-- Rendering of one row of the `console.table` output. -/
def renderRow (r : LsRow) : String :=
  r.ty ++ " " ++ r.name

/-- Model of `enumerateDirectoryContents` (`ls`). -/
def enumerateDirectoryContents (s : Session) : HRes :=
  let sorted := lsRows s
  if sorted = [] then
    ⟨s, ["This directory is empty."], .ok ()⟩
  else
    ⟨s, sorted.map renderRow, .ok ()⟩

/-! ## Content, creation, rename, deletion handlers -/

/-- Model of `streamResourceContentToConsole` (`cat`): stream the file as
UTF-8 text followed by a newline; any read failure (missing path, directory,
unreadable entry) surfaces as the rejection installed on the read stream. -/
def streamResourceContentToConsole (env : Env) (s : Session)
    (resourcePath : Option String) : HRes :=
  if jsFalsy resourcePath then
    ⟨s, [], .error (.invalidArgument "Resource path not specified.")⟩
  else
    let absolutePath := resolve s.cwd (resourcePath.getD "")
    match fsLookup s.fs absolutePath with
    | some (.file content) => ⟨s, [env.renderText content ++ "\n"], .ok ()⟩
    | _ => ⟨s, [], .error (.ioError "Error reading resource")⟩

/-- Model of `generateNewEmptyFile` (`add`): `writeFile` with flag `wx`
(exclusive create) — fails with `EEXIST` when any entry occupies the path,
with `ENOENT` when the parent directory is missing, and otherwise creates an
empty file. -/
def generateNewEmptyFile (s : Session) (fileName : Option String) : HRes :=
  if jsFalsy fileName then
    ⟨s, [], .error (.invalidArgument "File name not specified.")⟩
  else
    let absolutePath := resolve s.cwd (fileName.getD "")
    match fsLookup s.fs absolutePath with
    | some _ => ⟨s, [], .error (.alreadyExists "EEXIST: file already exists")⟩
    | none =>
      if parentReady s.fs absolutePath then
        ⟨{ s with fs := fsSet s.fs absolutePath (.file []) },
          ["File \"" ++ fileName.getD "" ++ "\" created successfully."], .ok ()⟩
      else
        ⟨s, [], .error (.ioError "ENOENT: no such file or directory")⟩

/-- Model of `modifyResourceName` (`rn`): the new name fragment is joined
with the containing directory of the source (not resolved independently);
`rename` fails when the source is absent or the destination cannot be
written. -/
def modifyResourceName (s : Session) (currentPath newNameFragment : Option String) : HRes :=
  if jsFalsy currentPath || jsFalsy newNameFragment then
    ⟨s, [], .error (.invalidArgument "Original path or new name not specified.")⟩
  else
    let absoluteOriginalPath := resolve s.cwd (currentPath.getD "")
    let containingDirectory := absoluteOriginalPath.dropLast
    let absoluteNewPath := joinPath containingDirectory (newNameFragment.getD "")
    match fsLookup s.fs absoluteOriginalPath with
    | none => ⟨s, [], .error (.ioError "ENOENT: no such file or directory")⟩
    | some e =>
      if writeStreamReady s.fs absoluteNewPath || absoluteNewPath = absoluteOriginalPath then
        ⟨{ s with fs := fsSet (fsRemove s.fs absoluteOriginalPath) absoluteNewPath e },
          ["Renamed \"" ++ currentPath.getD "" ++ "\" to \"" ++ newNameFragment.getD "" ++ "\"."],
          .ok ()⟩
      else
        ⟨s, [], .error (.ioError "rename failed")⟩

/-- Model of `obliterateSystemItem` (`rm`): `unlink` on the resolved path; on
the host OS `unlink` removes files and other non-directory entries and fails
on directories and absent paths. -/
def obliterateSystemItem (s : Session) (itemPath : Option String) : HRes :=
  if jsFalsy itemPath then
    ⟨s, [], .error (.invalidArgument "Item path not specified.")⟩
  else
    let absolutePath := resolve s.cwd (itemPath.getD "")
    match fsLookup s.fs absolutePath with
    | none => ⟨s, [], .error (.ioError "ENOENT: no such file or directory")⟩
    | some .dir => ⟨s, [], .error (.ioError "EISDIR: illegal operation on a directory")⟩
    | some _ =>
      ⟨{ s with fs := fsRemove s.fs absolutePath },
        ["Item \"" ++ itemPath.getD "" ++ "\" removed."], .ok ()⟩

/-! ## Copy / move handler -/

/-- Model of `transferResourceViaStream` (`cp` / `mv`).  Validation order
follows the source exactly: falsy-argument check, identical-paths check,
`stat` of the source, directory rejection; only then are the read and write
streams created.  Creating the write stream truncates or creates the
destination file; a successful pipe leaves the source content there, and for
a move the source is unlinked *after* the copy finished. -/
def transferResourceViaStream (s : Session)
    (source destinationContainer : Option String) (isMoveOperation : Bool) : HRes :=
  if jsFalsy source || jsFalsy destinationContainer then
    ⟨s, [], .error (.invalidArgument "Source or destination not specified.")⟩
  else
    let src := source.getD ""
    let dst := destinationContainer.getD ""
    let absoluteSourcePath := resolve s.cwd src
    let itemName := basename absoluteSourcePath
    let absoluteDestinationPath := resolve (resolve s.cwd dst) itemName
    if absoluteSourcePath = absoluteDestinationPath then
      ⟨s, [], .error (.invalidArgument "Source and destination paths are identical.")⟩
    else
      match fsLookup s.fs absoluteSourcePath with
      | none => ⟨s, [], .error (.notFound "ENOENT: no such file or directory")⟩
      | some .dir =>
        ⟨s, [], .error (.unsupportedOperation
          (if isMoveOperation then "Cannot move a directory with this command."
           else "Cannot copy a directory with this command."))⟩
      | some (.file content) =>
        if writeStreamReady s.fs absoluteDestinationPath then
          let copied := fsSet s.fs absoluteDestinationPath (.file content)
          if isMoveOperation then
            ⟨{ s with fs := fsRemove copied absoluteSourcePath },
              ["Moved \"" ++ src ++ "\"."], .ok ()⟩
          else
            ⟨{ s with fs := copied }, ["Copied \"" ++ src ++ "\"."], .ok ()⟩
        else
          ⟨s, [], .error (.ioError "Write stream error")⟩
      | some .other =>
        if writeStreamReady s.fs absoluteDestinationPath then
          ⟨{ s with fs := fsSet s.fs absoluteDestinationPath (.file []) },
            [], .error (.ioError "Read stream error")⟩
        else
          ⟨s, [], .error (.ioError "Write stream error")⟩

/-! ## Host info, checksum, compression handlers -/

/-- The five property keys the `os` handler declares as own properties of its
accessor object. -/
def osPropertyKeys : List String :=
  ["--EOL", "--cpus", "--homedir", "--username", "--architecture"]

/-- The members every plain object literal inherits from
`Object.prototype`; a lookup such as `propertyAccessors[key]` or
`commandRegistry[name]` finds these and they are truthy. -/
def objectProtoMembers : List String :=
  ["constructor", "hasOwnProperty", "isPrototypeOf", "propertyIsEnumerable",
   "toLocaleString", "toString", "valueOf",
   "__defineGetter__", "__defineSetter__", "__lookupGetter__", "__lookupSetter__",
   "__proto__"]

/-- Effect of `propertyAccessors[key]()` when `key` names an inherited
`Object.prototype` member: the member is invoked as a method of the accessor
object with no arguments.  The function-valued members succeed silently
(their return value is discarded); `__defineGetter__` / `__defineSetter__`
throw a `TypeError` (the getter argument is not a function) and `__proto__`
is not callable. -/
def osProtoCall (key : String) : Except Err Unit :=
  if key ∈ ["__defineGetter__", "__defineSetter__", "__proto__"] then
    .error (.typeError "inherited member call failed")
  else
    .ok ()

/-- Model of `reportOperatingSystemProperty` (`os`).  The own keys are the
five registered accessors; an inherited `Object.prototype` member name passes
the truthiness test `if (propertyAccessors[propertyKey])` and is invoked;
everything else throws the invalid-key error. -/
def reportOperatingSystemProperty (env : Env) (s : Session) (propertyKey : Option String) : HRes :=
  if jsFalsy propertyKey then
    ⟨s, [], .error (.invalidArgument "OS property key not specified.")⟩
  else
    let k := propertyKey.getD ""
    if k = "--EOL" then
      ⟨s, ["Default End-Of-Line sequence: " ++ env.eol], .ok ()⟩
    else if k = "--cpus" then
      ⟨s, ("CPU Core Information (Total: " ++ toString env.cpus.length ++ "):")
            :: env.cpus.map (fun cm => cm.1 ++ " " ++ toString cm.2), .ok ()⟩
    else if k = "--homedir" then
      ⟨s, ["User Home Directory: " ++ renderPath env.homedir], .ok ()⟩
    else if k = "--username" then
      ⟨s, ["Current System User: " ++ env.username], .ok ()⟩
    else if k = "--architecture" then
      ⟨s, ["System Architecture: " ++ env.arch], .ok ()⟩
    else if k ∈ objectProtoMembers then
      ⟨s, [], osProtoCall k⟩
    else
      ⟨s, [], .error (.invalidArgument ("Invalid OS property key: " ++ k))⟩

/-- Model of `generateResourceChecksum` (`hash`): stream the file through
SHA-256 and print the hex digest; read failures reject. -/
def generateResourceChecksum (env : Env) (s : Session) (resourcePath : Option String) : HRes :=
  if jsFalsy resourcePath then
    ⟨s, [], .error (.invalidArgument "Resource path not specified.")⟩
  else
    let absolutePath := resolve s.cwd (resourcePath.getD "")
    match fsLookup s.fs absolutePath with
    | some (.file content) =>
      ⟨s, ["SHA256 Checksum for \"" ++ resourcePath.getD "" ++ "\": " ++ env.sha256hex content],
        .ok ()⟩
    | _ => ⟨s, [], .error (.ioError "Error during hash calculation")⟩

/-- Model of `transformFileWithBrotli` (`compress` / `decompress`): both
streams are created before piping, so the target is created or truncated even
when the read or transform stage later fails. -/
def transformFileWithBrotli (env : Env) (s : Session)
    (sourcePath targetPath : Option String) (mode : String) : HRes :=
  if jsFalsy sourcePath || jsFalsy targetPath then
    ⟨s, [], .error (.invalidArgument "Source or target path not specified for transformation.")⟩
  else
    let absoluteSourcePath := resolve s.cwd (sourcePath.getD "")
    let absoluteTargetPath := resolve s.cwd (targetPath.getD "")
    if writeStreamReady s.fs absoluteTargetPath then
      match fsLookup s.fs absoluteSourcePath with
      | some (.file content) =>
        if mode = "encode" then
          ⟨{ s with fs := fsSet s.fs absoluteTargetPath (.file (env.brotliEncode content)) },
            ["File \"" ++ sourcePath.getD "" ++ "\" compressed."], .ok ()⟩
        else
          match env.brotliDecode content with
          | some plain =>
            ⟨{ s with fs := fsSet s.fs absoluteTargetPath (.file plain) },
              ["File \"" ++ sourcePath.getD "" ++ "\" decompressed."], .ok ()⟩
          | none =>
            ⟨{ s with fs := fsSet s.fs absoluteTargetPath (.file []) },
              [], .error (.ioError "Brotli stream error")⟩
      | _ =>
        ⟨{ s with fs := fsSet s.fs absoluteTargetPath (.file []) },
          [], .error (.ioError "Read stream error")⟩
    else
      ⟨s, [], .error (.ioError "Write stream error")⟩

/-! ## Command registry and dispatch loop -/

/-- The fourteen command names registered as own properties of
`commandRegistry`. -/
def commandNames : List String :=
  ["up", "cd", "ls", "cat", "add", "rn", "cp", "mv", "rm", "os",
   "hash", "compress", "decompress", ".exit"]

/-- How many of the whitespace-separated arguments each registered command
consumes (the handler parameter count bound by the registry). -/
def commandArity (name : String) : Nat :=
  if name ∈ ["up", "ls", ".exit"] then 0
  else if name ∈ ["cd", "cat", "add", "rm", "os", "hash"] then 1
  else 2

/-- Invocation of the handler registered for a (non-`.exit`) command name:
the dispatch loop spreads the argument list into the call and JavaScript
drops the extra arguments, so only the leading arguments are read. -/
def runCommand (env : Env) (s : Session) (name : String) (args : List String) : HRes :=
  if name = "up" then navigateUpward env s
  else if name = "cd" then navigateToSpecificDirectory s args[0]?
  else if name = "ls" then enumerateDirectoryContents s
  else if name = "cat" then streamResourceContentToConsole env s args[0]?
  else if name = "add" then generateNewEmptyFile s args[0]?
  else if name = "rn" then modifyResourceName s args[0]? args[1]?
  else if name = "cp" then transferResourceViaStream s args[0]? args[1]? false
  else if name = "mv" then transferResourceViaStream s args[0]? args[1]? true
  else if name = "rm" then obliterateSystemItem s args[0]?
  else if name = "os" then reportOperatingSystemProperty env s args[0]?
  else if name = "hash" then generateResourceChecksum env s args[0]?
  else if name = "compress" then transformFileWithBrotli env s args[0]? args[1]? "encode"
  else transformFileWithBrotli env s args[0]? args[1]? "decode"

/-- Outcome of dispatching one input line: the session afterwards, every
console line the step printed, and the exit code when the step terminates the
process. -/
structure StepResult where
  session : Session
  output : List String
  exitCode : Option Nat
deriving DecidableEq

/-- The warning printed for an unknown operation. -/
def unknownWarning : String :=
  "Warning: Unknown operation entered. Please try a valid command."

/-- The current-location line `displayCurrentPath` prints after every step. -/
def locationLine (s : Session) : String :=
  "[Current Location]: " ++ renderPath s.cwd

/-- The line the dispatch loop prints when a handler fails. -/
def errorLine (e : Err) : String :=
  "Error: Operation failed. Details - " ++ e.message

/-- Effect of `targetFunction(...args)` when the registry lookup found an
inherited `Object.prototype` member instead of a handler.  The call is
detached (`this` is `undefined`, the module is strict-mode code):
`toString` returns a tag string, `isPrototypeOf` returns `false`,
`constructor` builds an object — all succeed silently; the remaining members
coerce `this` to an object or are not callable and throw a `TypeError`. -/
def strayProtoCall (name : String) : Except Err Unit :=
  if name ∈ ["toString", "isPrototypeOf", "constructor"] then .ok ()
  else .error (.typeError "inherited member call failed")

/-- Model of the `on('line')` callback on an already-tokenized input line.
An empty token list (blank input) just redisplays the location; `.exit`
terminates; a registered name runs its handler, prints the error line on
failure, and redisplays the location; an inherited `Object.prototype` member
name passes the registry truthiness test and is invoked; anything else
prints the unknown-operation warning. -/
def dispatchTokens (env : Env) (s : Session) (tokens : List String) : StepResult :=
  match tokens with
  | [] => { session := s, output := [locationLine s], exitCode := none }
  | name :: args =>
    if name = ".exit" then
      { session := s,
        output := ["Advanced System Navigator session terminated. Goodbye!"],
        exitCode := some 0 }
    else if name ∈ commandNames then
      let r := runCommand env s name args
      { session := r.session,
        output := r.out ++
          (match r.res with | .ok _ => [] | .error e => [errorLine e]) ++
          [locationLine r.session],
        exitCode := none }
    else if name ∈ objectProtoMembers then
      match strayProtoCall name with
      | .ok _ => { session := s, output := [locationLine s], exitCode := none }
      | .error e => { session := s, output := [errorLine e, locationLine s], exitCode := none }
    else
      { session := s, output := [unknownWarning, locationLine s], exitCode := none }

/-- Tokenization performed by the callback: trim, then split on runs of
whitespace.  Trimming followed by the regex split yields exactly the
nonempty maximal runs of non-whitespace characters, which is how it is
modelled here. -/
def tokenize (line : String) : List String :=
  (splitBy Char.isWhitespace line.data []).filter (fun t => t ≠ "")

/-- Model of the `on('line')` callback on the raw input line. -/
def dispatchLine (env : Env) (s : Session) (line : String) : StepResult :=
  dispatchTokens env s (tokenize line)

/-! ## Concrete host used by witnesses -/

/-- A concrete environment for evaluating the model on sample inputs. -/
def sampleEnv : Env where
  homedir := ["home", "u"]
  eol := "n"
  cpus := [("cpu0", 2400)]
  username := "u"
  arch := "x64"
  sha256hex := fun _ => "digest"
  brotliEncode := fun c => c
  brotliDecode := fun c => some c
  renderText := fun _ => "text"

/-- A concrete session: home directory `/home/u` containing a file
`f.txt` and a directory `d`. -/
def sampleSession : Session where
  cwd := ["home", "u"]
  fs := [ (["home"], .dir),
          (["home", "u"], .dir),
          (["home", "u", "f.txt"], .file [104, 105]),
          (["home", "u", "d"], .dir) ]

/-- A session whose current directory holds, in `readdir` order, a file
`b`, a non-file non-directory entry `x`, and a file `a`. -/
def mixedSession : Session where
  cwd := ["h"]
  fs := [ (["h"], .dir),
          (["h", "b"], .file []),
          (["h", "x"], .other),
          (["h", "a"], .file []) ]

/-! ## Statement-side definitions -/

/-- The destination path `cp` / `mv` computes: the destination argument is
treated as a containing directory and the basename of the resolved source is
appended. -/
def destPath (s : Session) (src dst : String) : Path :=
  resolve (resolve s.cwd dst) (basename (resolve s.cwd src))

/-- Boolean prefix test on paths: `pathUnder h p` holds when `p` lies in the
subtree rooted at `h` (including `h` itself). -/
def pathUnder : Path → Path → Bool
  | [], _ => true
  | _ :: _, [] => false
  | a :: as, b :: bs => a = b && pathUnder as bs

/-- The names of the rows carrying a given classification string, in listing
order. -/
def namesOfType (t : String) (l : List LsRow) : List String :=
  (l.filter (fun r => r.ty = t)).map (fun r => r.name)

/-- A list of names is ascending under the name comparator. -/
def strAscending : List String → Bool
  | [] => true
  | [_] => true
  | a :: b :: t => (localeCompare a b ≤ 0) && strAscending (b :: t)

/-- Every row classified `Folder` appears before every differently-classified
row. -/
def foldersFirst : List LsRow → Bool
  | [] => true
  | r :: t =>
    (r.ty = "Folder" || t.all (fun q => q.ty ≠ "Folder")) && foldersFirst t

/-- The ordering property claimed for `ls` listings: folders first, and the
rows of each classification ascending by name. -/
def typeAscending (l : List LsRow) : Bool :=
  foldersFirst l && strAscending (namesOfType "Folder" l)
    && strAscending (namesOfType "File" l) && strAscending (namesOfType "Other" l)

/-- Linear-scan version of the binary-search insertion position: the length
of the longest prefix whose elements compare no greater than the pivot. -/
def linearUpper (cmp : α → α → Int) (x : α) : List α → Nat
  | [] => 0
  | a :: t => if 0 ≤ cmp x a then linearUpper cmp x t + 1 else 0

/-- Insertion at the linear-scan upper-bound position. -/
def upInsert (cmp : α → α → Int) (x : α) : List α → List α
  | [] => [x]
  | a :: t => if 0 ≤ cmp x a then a :: upInsert cmp x t else x :: a :: t

/-! ## Basic lemmas on the filesystem model -/

theorem fsLookup_fsRemove (fs : FS) (p q : Path) :
    fsLookup (fsRemove fs p) q = if q = p then none else fsLookup fs q := by
  induction fs with
  | nil => simp [fsRemove, fsLookup]
  | cons qe t ih =>
    obtain ⟨r, e⟩ := qe
    rw [fsRemove]
    by_cases hrp : r = p
    · subst hrp
      rw [if_pos rfl, ih]
      by_cases hqr : q = r
      · simp [hqr]
      · simp [fsLookup, hqr, Ne.symm hqr]
    · rw [if_neg hrp, fsLookup]
      by_cases hrq : r = q
      · subst hrq
        simp [fsLookup, hrp, Ne.symm hrp]
      · rw [if_neg hrq, ih, fsLookup, if_neg hrq]

theorem fsLookup_fsSet (fs : FS) (p q : Path) (e : Entry) :
    fsLookup (fsSet fs p e) q = if q = p then some e else fsLookup fs q := by
  by_cases hqp : q = p
  · subst hqp
    simp [fsSet, fsLookup]
  · simp [fsSet, fsLookup, Ne.symm hqp, hqp, fsLookup_fsRemove]

theorem pathUnder_refl : ∀ p : Path, pathUnder p p = true
  | [] => rfl
  | a :: as => by
    rw [pathUnder, Bool.and_eq_true, decide_eq_true_iff]
    exact ⟨rfl, pathUnder_refl as⟩

theorem pathUnder_dropLast :
    ∀ (h p : Path), pathUnder h p = true → p ≠ h → pathUnder h p.dropLast = true
  | [], _, _, _ => rfl
  | _ :: _, [], hp, _ => by simp [pathUnder] at hp
  | a :: as, b :: bs, hp, hne => by
    rw [pathUnder, Bool.and_eq_true, decide_eq_true_iff] at hp
    obtain ⟨rfl, htail⟩ := hp
    cases bs with
    | nil =>
      cases as with
      | nil => exact absurd rfl hne
      | cons x xs => simp [pathUnder] at htail
    | cons c cs =>
      have hdl : (a :: c :: cs).dropLast = a :: (c :: cs).dropLast := rfl
      rw [hdl, pathUnder, Bool.and_eq_true, decide_eq_true_iff]
      refine ⟨rfl, pathUnder_dropLast as (c :: cs) htail ?_⟩
      intro hcs
      exact hne (by rw [hcs])

theorem take1_get0 (l : List String) : (l.take 1)[0]? = l[0]? := by
  cases l <;> simp

theorem take2_get0 (l : List String) : (l.take 2)[0]? = l[0]? := by
  cases l <;> simp

theorem take2_get1 (l : List String) : (l.take 2)[1]? = l[1]? := by
  cases l with
  | nil => rfl
  | cons a t => cases t <;> simp

/-! ## Claim theorems -/

/-- C1: the claim asserts that every input line whose first token is not one
of the fourteen registered command names draws the unknown-operation warning
and invokes no handler.  The code looks the name up with
`commandRegistry[operationName]`, which also finds the members every object
literal inherits from `Object.prototype`, so the line `toString` passes the
truthiness test, the inherited `toString` is invoked as the handler, and no
warning is printed — the session just redisplays the location line. -/
theorem dispatch_inherited_member_no_warning :
    "toString" ∉ commandNames ∧
    dispatchLine sampleEnv sampleSession "toString" =
      { session := sampleSession,
        output := [locationLine sampleSession],
        exitCode := none } :=
  ⟨by decide, by rfl⟩

/-- C2: the claim asserts the `os` handler fails with `InvalidArgument` for
every argument other than the five registered keys.  The truthiness test
`if (propertyAccessors[propertyKey])` also accepts the member names inherited
from `Object.prototype`, so `os toString` invokes the inherited `toString`
and succeeds silently instead of failing. -/
theorem os_inherited_member_no_error :
    "toString" ∉ osPropertyKeys ∧
    reportOperatingSystemProperty sampleEnv sampleSession (some "toString") =
      ⟨sampleSession, [], .ok ()⟩ :=
  ⟨by decide, by rfl⟩

/-- C4: `cd` with no argument fails with the `InvalidArgument`-class error
and `cd` to a path absent from the filesystem fails with the
`NotFound`-class error raised by the metadata query; in both cases the
session (in particular its current directory) is returned unchanged. -/
theorem cd_failure_preserves_cwd (s : Session) (d : String) (hd : d ≠ "")
    (habs : fsLookup s.fs (resolve s.cwd d) = none) :
    navigateToSpecificDirectory s none =
      ⟨s, [], .error (.invalidArgument "Directory path not specified.")⟩ ∧
    navigateToSpecificDirectory s (some d) =
      ⟨s, [], .error (.notFound "ENOENT: no such file or directory")⟩ := by
  refine ⟨rfl, ?_⟩
  simp [navigateToSpecificDirectory, jsFalsy, hd, habs]

/-- Witness for C4 at a concrete session and missing path. -/
theorem cd_failure_preserves_cwd_witness :
    navigateToSpecificDirectory sampleSession (some "nope") =
      ⟨sampleSession, [], .error (.notFound "ENOENT: no such file or directory")⟩ :=
  (cd_failure_preserves_cwd sampleSession "nope" (by decide) (by decide)).2

/-- C7: `add` has exclusive-create semantics: when any entry occupies the
resolved path the handler fails with the `AlreadyExists`-class error and the
session (hence the existing content) is unchanged; on success it creates an
empty (zero-length) file at the resolved path. -/
theorem add_exclusive_create (s : Session) (n : String) (hn : n ≠ "") :
    (∀ e, fsLookup s.fs (resolve s.cwd n) = some e →
       generateNewEmptyFile s (some n) =
         ⟨s, [], .error (.alreadyExists "EEXIST: file already exists")⟩) ∧
    (fsLookup s.fs (resolve s.cwd n) = none →
     parentReady s.fs (resolve s.cwd n) = true →
       (generateNewEmptyFile s (some n)).res = .ok () ∧
       fsLookup (generateNewEmptyFile s (some n)).session.fs (resolve s.cwd n)
         = some (.file [])) := by
  constructor
  · intro e he
    simp [generateNewEmptyFile, jsFalsy, hn, he]
  · intro habs hpar
    simp [generateNewEmptyFile, jsFalsy, hn, habs, hpar, fsLookup_fsSet]

/-- Witness for C7: `add f.txt` over the existing file fails and preserves
it, `add new.txt` creates an empty file. -/
theorem add_exclusive_create_witness :
    generateNewEmptyFile sampleSession (some "f.txt") =
      ⟨sampleSession, [], .error (.alreadyExists "EEXIST: file already exists")⟩ ∧
    (generateNewEmptyFile sampleSession (some "new.txt")).res = .ok () ∧
    fsLookup (generateNewEmptyFile sampleSession (some "new.txt")).session.fs
      (resolve sampleSession.cwd "new.txt") = some (.file []) :=
  ⟨(add_exclusive_create sampleSession "f.txt" (by decide)).1 (.file [104, 105]) (by decide),
   (add_exclusive_create sampleSession "new.txt" (by decide)).2 (by decide) (by decide)⟩

/-- C8: `up` at the home directory mutates nothing and prints the
informational message; anywhere else it moves to the parent directory; and a
current directory inside the home subtree stays inside the home subtree, so
`up` never ascends above the home directory. -/
theorem up_bounded_at_home (env : Env) (s : Session) :
    (s.cwd = env.homedir →
       navigateUpward env s =
         ⟨s, ["Already at the root user directory. Cannot go further up."], .ok ()⟩) ∧
    (s.cwd ≠ env.homedir →
       navigateUpward env s = ⟨{ s with cwd := s.cwd.dropLast }, [], .ok ()⟩) ∧
    (pathUnder env.homedir s.cwd = true →
       pathUnder env.homedir (navigateUpward env s).session.cwd = true) := by
  refine ⟨?_, ?_, ?_⟩
  · intro h
    simp [navigateUpward, h]
  · intro h
    simp [navigateUpward, h]
  · intro hpre
    by_cases h : s.cwd = env.homedir
    · simp [navigateUpward, h, hpre, pathUnder_refl]
    · simpa [navigateUpward, h] using pathUnder_dropLast env.homedir s.cwd hpre h

/-- Witness for C8 at the sample session: at home `up` stays (with the
message), below home it moves to the parent and stays in the home subtree. -/
theorem up_bounded_at_home_witness :
    navigateUpward sampleEnv sampleSession =
      ⟨sampleSession, ["Already at the root user directory. Cannot go further up."], .ok ()⟩ ∧
    pathUnder sampleEnv.homedir
      (navigateUpward sampleEnv
        { sampleSession with cwd := ["home", "u", "d"] }).session.cwd = true :=
  ⟨(up_bounded_at_home sampleEnv sampleSession).1 (by decide),
   (up_bounded_at_home sampleEnv { sampleSession with cwd := ["home", "u", "d"] }).2.2 (by decide)⟩

/-- Branch analysis of `transferResourceViaStream`: whenever the returned
session differs from the input session, the outcome is either success or one
of the stream (`IOError`-class) failures; every validation failure happens
before any stream is opened and leaves the session intact. -/
theorem transfer_session_change (s : Session) (so dc : Option String) (b : Bool) :
    (transferResourceViaStream s so dc b).session = s ∨
    (transferResourceViaStream s so dc b).res = .ok () ∨
    (transferResourceViaStream s so dc b).res = .error (.ioError "Read stream error") := by
  simp only [transferResourceViaStream]
  repeat' split
  all_goals simp

/-- C10: when `cp` or `mv` fails with the missing-argument or
identical-paths `InvalidArgument` error or with the directory-source
`UnsupportedOperation` error, the validation fired before the destination
write stream was created and the filesystem (the whole session) is
unmodified. -/
theorem transfer_validation_preserves_fs (s : Session) (so dc : Option String) (b : Bool) :
    (∀ m, (transferResourceViaStream s so dc b).res = .error (.invalidArgument m) →
        (transferResourceViaStream s so dc b).session = s) ∧
    (∀ m, (transferResourceViaStream s so dc b).res = .error (.unsupportedOperation m) →
        (transferResourceViaStream s so dc b).session = s) := by
  have h := transfer_session_change s so dc b
  constructor
  · intro m hm
    rcases h with h | h | h
    · exact h
    · rw [hm] at h; cases h
    · rw [hm] at h; cases h
  · intro m hm
    rcases h with h | h | h
    · exact h
    · rw [hm] at h; cases h
    · rw [hm] at h; cases h

/-- Witness for C10: the missing-argument failure at a concrete session
leaves the session unchanged. -/
theorem transfer_validation_preserves_fs_witness :
    (transferResourceViaStream sampleSession none none false).session = sampleSession :=
  (transfer_validation_preserves_fs sampleSession none none false).1
    "Source or destination not specified." (by decide)

/-- C5 counterexample: `cp d .` where `d` is a directory in the sample
session resolves source and destination to the same path, so the operation
fails with the identical-paths `InvalidArgument` error, not with the
`UnsupportedOperation`-class error the claim promises for every directory
source. -/
theorem cp_directory_identical_paths :
    fsLookup sampleSession.fs (resolve sampleSession.cwd "d") = some .dir ∧
    (transferResourceViaStream sampleSession (some "d") (some ".") false).res =
      .error (.invalidArgument "Source and destination paths are identical.") :=
  ⟨by decide, by decide⟩

/-- C5 (amended): `cp` / `mv` whose resolved source is a directory *and
differs from the resolved destination* fails with the
`UnsupportedOperation`-class error, regardless of the move flag. -/
theorem transfer_directory_source_unsupported (s : Session) (src dst : String) (b : Bool)
    (hs : src ≠ "") (hd : dst ≠ "")
    (hne : resolve s.cwd src ≠ destPath s src dst)
    (hdir : fsLookup s.fs (resolve s.cwd src) = some .dir) :
    (transferResourceViaStream s (some src) (some dst) b).res =
      .error (.unsupportedOperation
        (if b then "Cannot move a directory with this command."
         else "Cannot copy a directory with this command.")) := by
  rw [destPath] at hne
  simp [transferResourceViaStream, jsFalsy, hs, hd, hne, hdir]

/-- Witness for the amended C5: moving the directory `d` into the missing
container `x` fails with the `UnsupportedOperation` error. -/
theorem transfer_directory_source_unsupported_witness :
    (transferResourceViaStream sampleSession (some "d") (some "x") true).res =
      .error (.unsupportedOperation "Cannot move a directory with this command.") := by
  have h := transfer_directory_source_unsupported sampleSession "d" "x" true
    (by decide) (by decide) (by decide) (by decide)
  simpa using h

/-- C3: for a regular file source and a writable distinct destination, both
`cp` and `mv` succeed; the filesystem after `mv` is exactly the filesystem
after `cp` with the source unlinked (copy first, then delete); after `mv`
the destination carries the byte-identical content and the source is gone;
after `cp` the source is untouched and the destination carries the same
content. -/
theorem mv_refines_cp_then_delete (s : Session) (src dst : String) (c : List Nat)
    (hs : src ≠ "") (hd : dst ≠ "")
    (hfile : fsLookup s.fs (resolve s.cwd src) = some (.file c))
    (hne : resolve s.cwd src ≠ destPath s src dst)
    (hw : writeStreamReady s.fs (destPath s src dst) = true) :
    (transferResourceViaStream s (some src) (some dst) true).res = .ok () ∧
    (transferResourceViaStream s (some src) (some dst) false).res = .ok () ∧
    (transferResourceViaStream s (some src) (some dst) true).session.fs =
      fsRemove (transferResourceViaStream s (some src) (some dst) false).session.fs
        (resolve s.cwd src) ∧
    fsLookup (transferResourceViaStream s (some src) (some dst) true).session.fs
      (destPath s src dst) = some (.file c) ∧
    fsLookup (transferResourceViaStream s (some src) (some dst) true).session.fs
      (resolve s.cwd src) = none ∧
    fsLookup (transferResourceViaStream s (some src) (some dst) false).session.fs
      (resolve s.cwd src) = some (.file c) ∧
    fsLookup (transferResourceViaStream s (some src) (some dst) false).session.fs
      (destPath s src dst) = some (.file c) := by
  rw [destPath] at hne hw
  have hmv : transferResourceViaStream s (some src) (some dst) true =
      { session := { cwd := s.cwd, fs := fsRemove (fsSet s.fs (resolve (resolve s.cwd dst) (basename (resolve s.cwd src))) (.file c)) (resolve s.cwd src) },
        out := ["Moved \"" ++ src ++ "\"."], res := .ok () } := by
    simp [transferResourceViaStream, jsFalsy, hs, hd, hne, hfile, hw]
  have hcp : transferResourceViaStream s (some src) (some dst) false =
      { session := { cwd := s.cwd, fs := fsSet s.fs (resolve (resolve s.cwd dst) (basename (resolve s.cwd src))) (.file c) },
        out := ["Copied \"" ++ src ++ "\"."], res := .ok () } := by
    simp [transferResourceViaStream, jsFalsy, hs, hd, hne, hfile, hw]
  rw [destPath, hmv, hcp]
  refine ⟨rfl, rfl, rfl, ?_, ?_, ?_, ?_⟩
  · simp [fsLookup_fsRemove, fsLookup_fsSet, Ne.symm hne]
  · simp [fsLookup_fsRemove]
  · simp [fsLookup_fsSet, hne, hfile]
  · simp [fsLookup_fsSet]

/-- Witness for C3: moving `f.txt` into the directory `d` of the sample
session. -/
theorem mv_refines_cp_then_delete_witness :
    (transferResourceViaStream sampleSession (some "f.txt") (some "d") true).res = .ok () ∧
    (transferResourceViaStream sampleSession (some "f.txt") (some "d") false).res = .ok () ∧
    (transferResourceViaStream sampleSession (some "f.txt") (some "d") true).session.fs =
      fsRemove
        (transferResourceViaStream sampleSession (some "f.txt") (some "d") false).session.fs
        (resolve sampleSession.cwd "f.txt") ∧
    fsLookup (transferResourceViaStream sampleSession (some "f.txt") (some "d") true).session.fs
      (destPath sampleSession "f.txt" "d") = some (.file [104, 105]) ∧
    fsLookup (transferResourceViaStream sampleSession (some "f.txt") (some "d") true).session.fs
      (resolve sampleSession.cwd "f.txt") = none ∧
    fsLookup (transferResourceViaStream sampleSession (some "f.txt") (some "d") false).session.fs
      (resolve sampleSession.cwd "f.txt") = some (.file [104, 105]) ∧
    fsLookup (transferResourceViaStream sampleSession (some "f.txt") (some "d") false).session.fs
      (destPath sampleSession "f.txt" "d") = some (.file [104, 105]) :=
  mv_refines_cp_then_delete sampleSession "f.txt" "d" [104, 105]
    (by decide) (by decide) (by decide) (by decide) (by decide)

/-- C9: for every registered command, arguments beyond the ones the handler
consumes are spread into the call and ignored by JavaScript, so the dispatch
of a line with extra arguments equals the dispatch of the truncated line. -/
theorem extra_arguments_ignored (env : Env) (s : Session) (name : String)
    (args : List String) (h : name ∈ commandNames) :
    dispatchTokens env s (name :: args) =
      dispatchTokens env s (name :: args.take (commandArity name)) := by
  simp only [commandNames, List.mem_cons, List.mem_singleton] at h
  rcases h with rfl | rfl | rfl | rfl | rfl | rfl | rfl | rfl | rfl | rfl | rfl | rfl | rfl | rfl | h
  · rfl
  · simp [dispatchTokens, commandArity, runCommand, commandNames, take1_get0]
  · rfl
  · simp [dispatchTokens, commandArity, runCommand, commandNames, take1_get0]
  · simp [dispatchTokens, commandArity, runCommand, commandNames, take1_get0]
  · simp [dispatchTokens, commandArity, runCommand, commandNames, take2_get0, take2_get1]
  · simp [dispatchTokens, commandArity, runCommand, commandNames, take2_get0, take2_get1]
  · simp [dispatchTokens, commandArity, runCommand, commandNames, take2_get0, take2_get1]
  · simp [dispatchTokens, commandArity, runCommand, commandNames, take1_get0]
  · simp [dispatchTokens, commandArity, runCommand, commandNames, take1_get0]
  · simp [dispatchTokens, commandArity, runCommand, commandNames, take1_get0]
  · simp [dispatchTokens, commandArity, runCommand, commandNames, take2_get0, take2_get1]
  · simp [dispatchTokens, commandArity, runCommand, commandNames, take2_get0, take2_get1]
  · rfl
  · cases h

/-- Witness for C9: `cd a b` dispatches exactly like `cd a`. -/
theorem extra_arguments_ignored_witness :
    dispatchTokens sampleEnv sampleSession ["cd", "a", "b"] =
      dispatchTokens sampleEnv sampleSession ["cd", "a"] := by
  simpa using extra_arguments_ignored sampleEnv sampleSession "cd" ["a", "b"] (by decide)

/-! ## Correctness of the modelled sort on consistent comparator domains

The `ls` comparator is only consistent on listings that do not mix `File`
and `Other` rows.  The following lemmas show that on any domain `D` where
the comparator negates under swapping and is transitive, binary insertion
sort produces a pairwise-sorted permutation. -/

theorem charListCompare_neg :
    ∀ as bs : List Char, charListCompare bs as = -(charListCompare as bs)
  | [], [] => rfl
  | [], _ :: _ => rfl
  | _ :: _, [] => rfl
  | a :: as, b :: bs => by
    rw [charListCompare, charListCompare]
    by_cases h1 : a.toNat < b.toNat
    · simp [h1, Nat.lt_asymm h1]
    · by_cases h2 : b.toNat < a.toNat
      · simp [h1, h2]
      · simp [h1, h2, charListCompare_neg as bs]

theorem charListCompare_lt_le :
    ∀ as bs cs : List Char, charListCompare as bs < 0 → charListCompare bs cs ≤ 0 →
      charListCompare as cs < 0
  | [], [], _, h1, _ => absurd h1 (by decide)
  | [], _ :: _, [], _, h2 => absurd (show (1 : Int) ≤ 0 from h2) (by decide)
  | [], _ :: _, _ :: _, _, _ => show (-1 : Int) < 0 by decide
  | _ :: _, [], _, h1, _ => absurd (show (1 : Int) < 0 from h1) (by decide)
  | _ :: _, _ :: _, [], _, h2 => absurd (show (1 : Int) ≤ 0 from h2) (by decide)
  | a :: as, b :: bs, c :: cs, h1, h2 => by
    rw [charListCompare] at h1 h2 ⊢
    by_cases hab : a.toNat < b.toNat
    · by_cases hbc : b.toNat < c.toNat
      · rw [if_pos (Nat.lt_trans hab hbc)]
        decide
      · by_cases hcb : c.toNat < b.toNat
        · rw [if_neg hbc, if_pos hcb] at h2
          exact absurd h2 (by decide)
        · have hac : a.toNat < c.toNat := by omega
          rw [if_pos hac]
          decide
    · by_cases hba : b.toNat < a.toNat
      · rw [if_neg hab, if_pos hba] at h1
        exact absurd h1 (by decide)
      · rw [if_neg hab, if_neg hba] at h1
        by_cases hbc : b.toNat < c.toNat
        · have hac : a.toNat < c.toNat := by omega
          rw [if_pos hac]
          decide
        · by_cases hcb : c.toNat < b.toNat
          · rw [if_neg hbc, if_pos hcb] at h2
            exact absurd h2 (by decide)
          · rw [if_neg hbc, if_neg hcb] at h2
            have hac1 : ¬ a.toNat < c.toNat := by omega
            have hac2 : ¬ c.toNat < a.toNat := by omega
            rw [if_neg hac1, if_neg hac2]
            exact charListCompare_lt_le as bs cs h1 h2

theorem localeCompare_neg (a b : String) : localeCompare b a = -(localeCompare a b) :=
  charListCompare_neg a.data b.data

theorem localeCompare_lt_le (a b c : String)
    (h1 : localeCompare a b < 0) (h2 : localeCompare b c ≤ 0) : localeCompare a c < 0 :=
  charListCompare_lt_le a.data b.data c.data h1 h2

theorem lsCmp_neg (t : String) (ht : t ≠ "Folder") (a b : LsRow)
    (ha : a.ty = "Folder" ∨ a.ty = t) (hb : b.ty = "Folder" ∨ b.ty = t) :
    lsCmp b a = -(lsCmp a b) := by
  unfold lsCmp
  rcases ha with ha | ha <;> rcases hb with hb | hb
  · rw [if_pos (hb.trans ha.symm), if_pos (ha.trans hb.symm)]
    exact localeCompare_neg a.name b.name
  · have h1 : b.ty ≠ a.ty := by rw [ha, hb]; exact ht
    have h2 : a.ty ≠ b.ty := fun h => h1 h.symm
    have h3 : b.ty ≠ "Folder" := by rw [hb]; exact ht
    rw [if_neg h1, if_neg h3, if_neg h2, if_pos ha]
    all_goals decide
  · have h1 : b.ty ≠ a.ty := by rw [ha, hb]; exact Ne.symm ht
    have h2 : a.ty ≠ b.ty := fun h => h1 h.symm
    have h3 : a.ty ≠ "Folder" := by rw [ha]; exact ht
    rw [if_neg h1, if_pos hb, if_neg h2, if_neg h3]
  · rw [if_pos (hb.trans ha.symm), if_pos (ha.trans hb.symm)]
    exact localeCompare_neg a.name b.name

theorem lsCmp_ltle (t : String) (ht : t ≠ "Folder") (a b c : LsRow)
    (ha : a.ty = "Folder" ∨ a.ty = t) (hb : b.ty = "Folder" ∨ b.ty = t)
    (hc : c.ty = "Folder" ∨ c.ty = t)
    (h1 : lsCmp a b < 0) (h2 : lsCmp b c ≤ 0) : lsCmp a c < 0 := by
  unfold lsCmp at h1 h2 ⊢
  rcases ha with ha | ha <;> rcases hb with hb | hb <;> rcases hc with hc | hc
  · rw [if_pos (ha.trans hb.symm)] at h1
    rw [if_pos (hb.trans hc.symm)] at h2
    rw [if_pos (ha.trans hc.symm)]
    exact localeCompare_lt_le a.name b.name c.name h1 h2
  · have hne : a.ty ≠ c.ty := by rw [ha, hc]; exact Ne.symm ht
    rw [if_neg hne, if_pos ha]
    all_goals decide
  · have hne : b.ty ≠ c.ty := by rw [hb, hc]; exact ht
    have hnf : b.ty ≠ "Folder" := by rw [hb]; exact ht
    rw [if_neg hne, if_neg hnf] at h2
    omega
  · have hne : a.ty ≠ c.ty := by rw [ha, hc]; exact Ne.symm ht
    rw [if_neg hne, if_pos ha]
    all_goals decide
  · have hne : a.ty ≠ b.ty := by rw [ha, hb]; exact ht
    have hnf : a.ty ≠ "Folder" := by rw [ha]; exact ht
    rw [if_neg hne, if_neg hnf] at h1
    omega
  · have hne : a.ty ≠ b.ty := by rw [ha, hb]; exact ht
    have hnf : a.ty ≠ "Folder" := by rw [ha]; exact ht
    rw [if_neg hne, if_neg hnf] at h1
    omega
  · have hne : b.ty ≠ c.ty := by rw [hb, hc]; exact ht
    have hnf : b.ty ≠ "Folder" := by rw [hb]; exact ht
    rw [if_neg hne, if_neg hnf] at h2
    omega
  · rw [if_pos (ha.trans hb.symm)] at h1
    rw [if_pos (hb.trans hc.symm)] at h2
    rw [if_pos (ha.trans hc.symm)]
    exact localeCompare_lt_le a.name b.name c.name h1 h2

theorem linearUpper_le_length (cmp : α → α → Int) (x : α) :
    ∀ l : List α, linearUpper cmp x l ≤ l.length
  | [] => Nat.le_refl 0
  | a :: t => by
    rw [linearUpper]
    by_cases h : 0 ≤ cmp x a
    · rw [if_pos h]
      exact Nat.succ_le_succ (linearUpper_le_length cmp x t)
    · rw [if_neg h]
      exact Nat.zero_le _

theorem linearUpper_low (cmp : α → α → Int) (x : α) :
    ∀ (l : List α) (k : Nat), k < linearUpper cmp x l → 0 ≤ cmp x (l.getD k x)
  | [], k, hk => by rw [linearUpper] at hk; omega
  | a :: t, k, hk => by
    rw [linearUpper] at hk
    by_cases h : 0 ≤ cmp x a
    · rw [if_pos h] at hk
      cases k with
      | zero => exact h
      | succ j => exact linearUpper_low cmp x t j (by omega)
    · rw [if_neg h] at hk
      omega

theorem linearUpper_boundary (cmp : α → α → Int) (x : α) :
    ∀ l : List α, linearUpper cmp x l < l.length →
      cmp x (l.getD (linearUpper cmp x l) x) < 0
  | [], h => by rw [linearUpper] at h; simp at h
  | a :: t, h => by
    rw [linearUpper] at h ⊢
    by_cases ha : 0 ≤ cmp x a
    · rw [if_pos ha] at h ⊢
      exact linearUpper_boundary cmp x t (by simpa using h)
    · rw [if_neg ha]
      simpa using Int.not_le.mp ha

theorem pairwise_getD (R : α → α → Prop) (l : List α) (d : α)
    (hp : l.Pairwise R) (i j : Nat) (hij : i < j) (hj : j < l.length) :
    R (l.getD i d) (l.getD j d) := by
  rw [List.getD_eq_getElem l d (show i < l.length by omega), List.getD_eq_getElem l d hj]
  exact List.pairwise_iff_getElem.mp hp i j (by omega) hj hij

theorem getD_mem : ∀ (l : List α) (d : α) (k : Nat), k < l.length → l.getD k d ∈ l := by
  intro l d
  induction l with
  | nil =>
    intro k hk
    simp at hk
  | cons a t ih =>
    intro k hk
    cases k with
    | zero =>
      rw [List.getD_cons_zero]
      exact List.mem_cons_self a t
    | succ j =>
      rw [List.getD_cons_succ]
      exact List.mem_cons_of_mem a (ih j (by simpa using hk))

theorem linearUpper_suffix (cmp : α → α → Int) (D : α → Prop)
    (hltle : ∀ a b c, D a → D b → D c → cmp a b < 0 → cmp b c ≤ 0 → cmp a c < 0)
    (x : α) (hx : D x) (l : List α) (hD : ∀ a ∈ l, D a)
    (hsort : l.Pairwise (fun a b => cmp a b ≤ 0)) :
    ∀ k, linearUpper cmp x l ≤ k → k < l.length → cmp x (l.getD k x) < 0 := by
  intro k hPk hk
  have hP : linearUpper cmp x l < l.length := by omega
  have h1 : cmp x (l.getD (linearUpper cmp x l) x) < 0 := linearUpper_boundary cmp x l hP
  rcases Nat.eq_or_lt_of_le hPk with heq | hlt
  · rw [← heq]
    exact h1
  · have h2 : cmp (l.getD (linearUpper cmp x l) x) (l.getD k x) ≤ 0 :=
      pairwise_getD _ l x hsort _ k hlt hk
    exact hltle x _ _ hx (hD _ (getD_mem l x _ hP)) (hD _ (getD_mem l x k hk)) h1 h2

theorem binSearchGo_eq (cmp : α → α → Int) (x : α) (l : List α)
    (hpre : ∀ k, k < linearUpper cmp x l → 0 ≤ cmp x (l.getD k x))
    (hpost : ∀ k, linearUpper cmp x l ≤ k → k < l.length → cmp x (l.getD k x) < 0) :
    ∀ (fuel left right : Nat), left ≤ linearUpper cmp x l →
      linearUpper cmp x l ≤ right → right ≤ l.length → right - left ≤ fuel →
      binSearchGo cmp x l fuel left right = linearUpper cmp x l := by
  intro fuel
  induction fuel with
  | zero =>
    intro left right h1 h2 h3 h4
    rw [binSearchGo]
    omega
  | succ n ih =>
    intro left right h1 h2 h3 h4
    rw [binSearchGo]
    by_cases hlr : left < right
    · rw [if_pos hlr]
      by_cases hc : cmp x (l.getD ((left + right) / 2) x) < 0
      · rw [if_pos hc]
        have hPm : linearUpper cmp x l ≤ (left + right) / 2 := by
          by_contra hh
          push_neg at hh
          have := hpre _ hh
          omega
        exact ih left _ h1 hPm (by omega) (by omega)
      · rw [if_neg hc]
        have hmP : (left + right) / 2 < linearUpper cmp x l := by
          by_contra hh
          push_neg at hh
          exact hc (hpost _ hh (by omega))
        exact ih _ right (by omega) h2 h3 (by omega)
    · rw [if_neg hlr]
      omega

theorem insertAt_linearUpper (cmp : α → α → Int) (x : α) :
    ∀ l : List α, insertAt (linearUpper cmp x l) x l = upInsert cmp x l
  | [] => rfl
  | a :: t => by
    rw [linearUpper, upInsert]
    by_cases h : 0 ≤ cmp x a
    · rw [if_pos h, if_pos h, insertAt, insertAt_linearUpper cmp x t]
    · rw [if_neg h, if_neg h]
      rfl

theorem upInsert_mem (cmp : α → α → Int) (x : α) :
    ∀ (l : List α) (b : α), b ∈ upInsert cmp x l ↔ b = x ∨ b ∈ l
  | [], b => by simp [upInsert]
  | a :: t, b => by
    rw [upInsert]
    by_cases h : 0 ≤ cmp x a
    · rw [if_pos h]
      simp only [List.mem_cons, upInsert_mem cmp x t b]
      tauto
    · rw [if_neg h]
      simp only [List.mem_cons]

theorem upInsert_perm (cmp : α → α → Int) (x : α) :
    ∀ l : List α, (upInsert cmp x l).Perm (x :: l)
  | [] => List.Perm.refl _
  | a :: t => by
    rw [upInsert]
    by_cases h : 0 ≤ cmp x a
    · rw [if_pos h]
      exact ((upInsert_perm cmp x t).cons a).trans (List.Perm.swap x a t)
    · rw [if_neg h]

theorem upInsert_pairwise (cmp : α → α → Int) (D : α → Prop)
    (hneg : ∀ a b, D a → D b → cmp b a = -(cmp a b))
    (hltle : ∀ a b c, D a → D b → D c → cmp a b < 0 → cmp b c ≤ 0 → cmp a c < 0)
    (x : α) (hx : D x) :
    ∀ l : List α, (∀ a ∈ l, D a) → l.Pairwise (fun a b => cmp a b ≤ 0) →
      (upInsert cmp x l).Pairwise (fun a b => cmp a b ≤ 0)
  | [], _, _ => by simp [upInsert]
  | a :: t, hD, hp => by
    rw [upInsert]
    obtain ⟨ha, ht⟩ := List.pairwise_cons.mp hp
    by_cases h : 0 ≤ cmp x a
    · rw [if_pos h]
      refine List.pairwise_cons.mpr ⟨?_, upInsert_pairwise cmp D hneg hltle x hx t
        (fun b hb => hD b (List.mem_cons_of_mem a hb)) ht⟩
      intro b hb
      rcases (upInsert_mem cmp x t b).mp hb with hbx | hbt
      · rw [hbx]
        have hnn := hneg x a hx (hD a (List.mem_cons_self a t))
        omega
      · exact ha b hbt
    · rw [if_neg h]
      have hxa : cmp x a < 0 := by omega
      refine List.pairwise_cons.mpr ⟨?_, hp⟩
      intro b hb
      rcases List.mem_cons.mp hb with hba | hbt
      · rw [hba]
        omega
      · exact le_of_lt (hltle x a b hx (hD a (List.mem_cons_self a t))
          (hD b (List.mem_cons_of_mem a hbt)) hxa (ha b hbt))

theorem binsort_aux (cmp : α → α → Int) (D : α → Prop)
    (hneg : ∀ a b, D a → D b → cmp b a = -(cmp a b))
    (hltle : ∀ a b c, D a → D b → D c → cmp a b < 0 → cmp b c ≤ 0 → cmp a c < 0) :
    ∀ (l acc : List α), (∀ a ∈ l, D a) → (∀ a ∈ acc, D a) →
      acc.Pairwise (fun a b => cmp a b ≤ 0) →
      (List.foldl (fun acc x => insertAt (binSearchPos cmp x acc) x acc) acc l).Pairwise
        (fun a b => cmp a b ≤ 0) ∧
      (List.foldl (fun acc x => insertAt (binSearchPos cmp x acc) x acc) acc l).Perm (acc ++ l)
  | [], acc, _, _, hacc => ⟨hacc, by simp⟩
  | x :: t, acc, hDl, hDacc, hacc => by
    rw [List.foldl_cons]
    have hx : D x := hDl x (List.mem_cons_self x t)
    have hstep : insertAt (binSearchPos cmp x acc) x acc = upInsert cmp x acc := by
      rw [binSearchPos,
          binSearchGo_eq cmp x acc (linearUpper_low cmp x acc)
            (linearUpper_suffix cmp D hltle x hx acc hDacc hacc)
            acc.length 0 acc.length (Nat.zero_le _)
            (linearUpper_le_length cmp x acc) (Nat.le_refl _) (by omega),
          insertAt_linearUpper]
    rw [hstep]
    have hDup : ∀ a ∈ upInsert cmp x acc, D a := by
      intro a hA
      rcases (upInsert_mem cmp x acc a).mp hA with rfl | hA
      · exact hx
      · exact hDacc a hA
    have hup := upInsert_pairwise cmp D hneg hltle x hx acc hDacc hacc
    obtain ⟨h1, h2⟩ := binsort_aux cmp D hneg hltle t (upInsert cmp x acc)
      (fun a hA => hDl a (List.mem_cons_of_mem x hA)) hDup hup
    refine ⟨h1, h2.trans ?_⟩
    have hp1 : (upInsert cmp x acc ++ t).Perm ((x :: acc) ++ t) :=
      (upInsert_perm cmp x acc).append_right t
    have hp2 : ((x :: acc) ++ t).Perm (acc ++ x :: t) := by
      simpa using List.perm_middle.symm
    exact hp1.trans hp2

theorem binsort_sorted (cmp : α → α → Int) (D : α → Prop)
    (hneg : ∀ a b, D a → D b → cmp b a = -(cmp a b))
    (hltle : ∀ a b c, D a → D b → D c → cmp a b < 0 → cmp b c ≤ 0 → cmp a c < 0)
    (l : List α) (hD : ∀ a ∈ l, D a) :
    (binsort cmp l).Pairwise (fun a b => cmp a b ≤ 0) ∧ (binsort cmp l).Perm l := by
  have h := binsort_aux cmp D hneg hltle l [] hD (by simp) (by simp)
  rw [binsort]
  exact ⟨h.1, by simpa using h.2⟩

theorem foldersFirst_of_pairwise :
    ∀ l : List LsRow, l.Pairwise (fun a b => lsCmp a b ≤ 0) → foldersFirst l = true
  | [], _ => rfl
  | r :: t, hp => by
    obtain ⟨hr, ht⟩ := List.pairwise_cons.mp hp
    rw [foldersFirst, Bool.and_eq_true, foldersFirst_of_pairwise t ht]
    refine ⟨?_, rfl⟩
    by_cases hF : r.ty = "Folder"
    · simp [hF]
    · rw [Bool.or_eq_true]
      right
      rw [List.all_eq_true]
      intro q hq
      rw [decide_eq_true_iff]
      intro hqF
      have := hr q hq
      rw [lsCmp] at this
      by_cases he : r.ty = q.ty
      · exact hF (he.trans hqF)
      · rw [if_neg he, if_neg hF] at this
        omega

theorem strAscending_of_pairwise (T : String) :
    ∀ m : List LsRow, (∀ r ∈ m, r.ty = T) → m.Pairwise (fun a b => lsCmp a b ≤ 0) →
      strAscending (m.map (fun r => r.name)) = true
  | [], _, _ => rfl
  | [_], _, _ => rfl
  | a :: b :: t, hT, hp => by
    obtain ⟨ha, ht⟩ := List.pairwise_cons.mp hp
    rw [List.map_cons, List.map_cons, strAscending, Bool.and_eq_true]
    constructor
    · rw [decide_eq_true_iff]
      have hab := ha b (List.mem_cons_self b t)
      rw [lsCmp, if_pos ((hT a (by simp)).trans (hT b (by simp)).symm)] at hab
      exact hab
    · rw [← List.map_cons]
      exact strAscending_of_pairwise T (b :: t) (fun r hr => hT r (List.mem_cons_of_mem a hr)) ht

theorem namesOfType_ascending (T : String) (l : List LsRow)
    (hp : l.Pairwise (fun a b => lsCmp a b ≤ 0)) :
    strAscending (namesOfType T l) = true := by
  rw [namesOfType]
  refine strAscending_of_pairwise T _ ?_ (List.Pairwise.filter _ hp)
  intro r hr
  exact decide_eq_true_iff.mp (List.mem_filter.mp hr).2

theorem lsInputRows_ty (s : Session) :
    ∀ r ∈ lsInputRows s, r.ty = "Folder" ∨ r.ty = "File" ∨ r.ty = "Other" := by
  intro r hr
  rw [lsInputRows, List.mem_map] at hr
  obtain ⟨ne, _, rfl⟩ := hr
  rcases ne with ⟨n, c | _ | _⟩ <;> simp [rowOf]

/-- C6 counterexample: in a listing that mixes `File` and `Other` rows the
comparator is inconsistent (it answers `1` for both orders of a
`File`/`Other` pair), and the modelled engine sort leaves the listing
`[file b, other x, file a]` untouched: the two `File` rows come out in the
order `b`, `a`, not ascending by name, refuting the claimed ordering for
every listing. -/
theorem ls_mixed_listing_not_sorted :
    lsInputRows mixedSession =
      [⟨"b", "File"⟩, ⟨"x", "Other"⟩, ⟨"a", "File"⟩] ∧
    lsRows mixedSession =
      [⟨"b", "File"⟩, ⟨"x", "Other"⟩, ⟨"a", "File"⟩] ∧
    namesOfType "File" (lsRows mixedSession) = ["b", "a"] ∧
    typeAscending (lsRows mixedSession) = false :=
  ⟨by decide, by decide, by decide, by decide⟩

/-- C6 (amended): for every directory listing that does not contain both
`File`-classified and `Other`-classified entries (on such listings the
comparator is consistent), the `ls` table places all `Folder` rows before
the rest, orders rows of equal classification ascending by name, and is a
permutation of the directory contents; an empty directory produces the
informational message instead of a table. -/
theorem ls_listing_sorted (s : Session)
    (hmix : ¬((∃ r ∈ lsInputRows s, r.ty = "File") ∧
              (∃ r ∈ lsInputRows s, r.ty = "Other"))) :
    typeAscending (lsRows s) = true ∧
    (lsRows s).Perm (lsInputRows s) ∧
    (lsInputRows s = [] →
      (enumerateDirectoryContents s).out = ["This directory is empty."]) := by
  have hty := lsInputRows_ty s
  have hdom : (∀ r ∈ lsInputRows s, r.ty = "Folder" ∨ r.ty = "File") ∨
      (∀ r ∈ lsInputRows s, r.ty = "Folder" ∨ r.ty = "Other") := by
    by_cases hf : ∃ r ∈ lsInputRows s, r.ty = "File"
    · left
      intro r hr
      rcases hty r hr with h | h | h
      · exact Or.inl h
      · exact Or.inr h
      · exact absurd ⟨hf, r, hr, h⟩ hmix
    · right
      intro r hr
      rcases hty r hr with h | h | h
      · exact Or.inl h
      · exact absurd ⟨r, hr, h⟩ hf
      · exact Or.inr h
  have hsp : (lsRows s).Pairwise (fun a b => lsCmp a b ≤ 0) ∧
      (lsRows s).Perm (lsInputRows s) := by
    rw [lsRows]
    rcases hdom with hdom | hdom
    · exact binsort_sorted lsCmp (fun r => r.ty = "Folder" ∨ r.ty = "File")
        (lsCmp_neg "File" (by decide)) (lsCmp_ltle "File" (by decide))
        (lsInputRows s) hdom
    · exact binsort_sorted lsCmp (fun r => r.ty = "Folder" ∨ r.ty = "Other")
        (lsCmp_neg "Other" (by decide)) (lsCmp_ltle "Other" (by decide))
        (lsInputRows s) hdom
  obtain ⟨hp, hperm⟩ := hsp
  refine ⟨?_, hperm, ?_⟩
  · rw [typeAscending, Bool.and_eq_true, Bool.and_eq_true, Bool.and_eq_true]
    exact ⟨⟨⟨foldersFirst_of_pairwise _ hp, namesOfType_ascending _ _ hp⟩,
      namesOfType_ascending _ _ hp⟩, namesOfType_ascending _ _ hp⟩
  · intro hnil
    rw [enumerateDirectoryContents]
    have : lsRows s = [] := by
      rw [lsRows, hnil]
      rfl
    simp [this]

/-- Witness for the amended C6 at the sample session (a folder and a file,
no `Other` entries). -/
theorem ls_listing_sorted_witness :
    typeAscending (lsRows sampleSession) = true ∧
    (lsRows sampleSession).Perm (lsInputRows sampleSession) ∧
    (lsInputRows sampleSession = [] →
      (enumerateDirectoryContents sampleSession).out = ["This directory is empty."]) :=
  ls_listing_sorted sampleSession (by decide)

end MainJs
